import Mathlib

/-!
Verification of the checksum coprocessor core (src/coprocessor/checksum.rs).

The file shallowly embeds the code of `ChecksumContext` and the free function
`checksum_crc64_xor`, together with models (taken from the specification) of
the external collaborators that are not part of the source tree: the CRC64
digest of the `crc` crate, the snapshot-backed row scanner, and the executor
metrics accumulator.  Machine integers are modelled as `Nat`; every operation
performed by the code (xor, shift by division, byte table lookup) preserves
the 64-bit range, so no explicit wrap-around is needed.
-/

namespace TikvChecksum

/-! ## CRC64 (ECMA), as implemented by the `crc` crate used via
`crc::crc64::{Digest, Hasher64}`.

Modelled from the spec: the dependency `crc64::ECMA` is the reflected
ECMA-182 polynomial; `Digest::new(poly)` starts from value 0, `write`
folds bytes through the byte table after complementing the running value
on entry and on exit, and `sum64` reads the running value. -/

/-- The reflected ECMA-182 polynomial used by `crc64::ECMA`. -/
def ECMA : Nat := 0xc96c5795d7870f42

/-- All-ones 64-bit mask, used for the complement steps of the crc update. -/
def MASK64 : Nat := 2 ^ 64 - 1

/-- One bit-step of the table generator: shift right, conditionally xor
the polynomial (reflected CRC). -/
def crcStep (value : Nat) : Nat :=
  if value % 2 = 1 then (value / 2) ^^^ ECMA else value / 2

/-- Entry `i` of the 256-entry crc table: eight bit-steps applied to `i`. -/
def crcTableEntry (i : Nat) : Nat := crcStep^[8] i

/-- One byte of the crc update: table lookup on the low byte xored with the
input byte, xored with the value shifted right by eight bits. -/
def crcUpdateByte (value : Nat) (b : Nat) : Nat :=
  crcTableEntry ((value % 256) ^^^ b) ^^^ (value / 256)

/-- The `update` function of the crc crate: complement, fold the bytes
through `crcUpdateByte`, complement again. -/
def crcUpdate (value : Nat) (bytes : List Nat) : Nat :=
  (bytes.foldl crcUpdateByte (value ^^^ MASK64)) ^^^ MASK64

/-- The crc-crate `Digest`: a running 64-bit value. -/
structure Digest where
  value : Nat
deriving DecidableEq

/-- `Digest::new(crc64::ECMA)` starts from value 0. -/
def Digest.new : Digest := ⟨0⟩

/-- `Hasher64::write` folds bytes into the running value via `update`. -/
def Digest.write (d : Digest) (bytes : List Nat) : Digest :=
  ⟨crcUpdate d.value bytes⟩

/-- `Hasher64::sum64` reads the running value. -/
def Digest.sum64 (d : Digest) : Nat := d.value

/-- Reference single-shot CRC64 (ECMA-182) of a byte string, the crc crate
`checksum_ecma`. -/
def crc64_ecma (bytes : List Nat) : Nat := crcUpdate 0 bytes

/-! ## The embedded source: `checksum_crc64_xor` (checksum.rs lines 116-121). -/

/-- Line-by-line embedding of `checksum_crc64_xor`: a fresh digest, write the
key bytes, write the value bytes, xor the 64-bit sum into the accumulator. -/
def checksum_crc64_xor (checksum : Nat) (k v : List Nat) : Nat :=
  checksum ^^^ (((Digest.new).write k).write v).sum64

/-! ## Data model of the request and of the spec-modelled collaborators. -/

/-- Modelled from the spec: the checksum-algorithm enumeration of the request
protocol.  The wire format carries an integer tag; `crc64Xor` is the one
supported variant, any other tag is an unsupported algorithm. -/
inductive ChecksumAlgorithm where
  | crc64Xor
  | unsupported (tag : Nat)
deriving DecidableEq

/-- Modelled from the spec: the scan-on enumeration (table or index object). -/
inductive ChecksumScanOn where
  | table
  | index
deriving DecidableEq

/-- Modelled from the spec: a key range, a start/end byte-string pair. -/
structure KeyRange where
  start_key : List Nat
  end_key : List Nat
deriving DecidableEq

/-- A decoded row: key bytes and value bytes. -/
structure Row where
  key : List Nat
  value : List Nat
deriving DecidableEq

/-- Number of bytes a row contributes to `total_bytes`. -/
def row_bytes (r : Row) : Nat := r.key.length + r.value.length

/-- The `ChecksumRequest` fields the code reads. -/
structure ChecksumRequest where
  algorithm : ChecksumAlgorithm
  scan_on : ChecksumScanOn
  start_ts : Nat
deriving DecidableEq

/-- Modelled from the spec: the executor metrics accumulator.  The code
touches two parts of it: `scan_counter.inc_range()` once per scanner poll,
and `scanner.collect_statistics_into(&mut metrics.cf_stats)` once per
exhausted range; we record the number of each kind of event. -/
structure ExecutorMetrics where
  scan_counter : Nat
  cf_stats : Nat
deriving DecidableEq

/-- `metrics.scan_counter.inc_range()`. -/
def ExecutorMetrics.inc_range (m : ExecutorMetrics) : ExecutorMetrics :=
  ⟨m.scan_counter + 1, m.cf_stats⟩

/-- Modelled from the spec: the row source bound to one range.  A scanner
holds the not-yet-yielded rows of its current range; `next_row` pops the
head, yielding `none` on exhaustion. -/
structure Scanner where
  pending : List Row
deriving DecidableEq

/-- Modelled from the spec: `Scanner::new` binds a fresh row source to a
range; the snapshot store and the table/index scan mode are absorbed into
the ambient `rowsOf` function giving the rows each range yields. -/
def Scanner.new (rowsOf : KeyRange → List Row) (r : KeyRange) : Scanner :=
  ⟨rowsOf r⟩

/-- Modelled from the spec: `Scanner::reset_range` rebinds an existing row
source to a new range, observably equivalent to destroy-then-bind. -/
def Scanner.reset_range (rowsOf : KeyRange → List Row) (_s : Scanner)
    (r : KeyRange) : Scanner :=
  ⟨rowsOf r⟩

/-- `scanner.collect_statistics_into(&mut metrics.cf_stats)`: flush the
per-range statistics of an exhausted scanner into the metrics. -/
def Scanner.collect_statistics_into (_s : Scanner) (m : ExecutorMetrics) :
    ExecutorMetrics :=
  ⟨m.scan_counter, m.cf_stats + 1⟩

/-- The coprocessor error type as the code distinguishes it: the
`box_err!` unsupported-algorithm error of `handle_request`, and errors
surfaced by the row source (opaque payload). -/
inductive CopError where
  | unknown_algorithm (alg : ChecksumAlgorithm)
  | source (code : Nat)
deriving DecidableEq

/-- The serialized checksum response payload: the three result fields. -/
structure ChecksumResponse where
  checksum : Nat
  total_kvs : Nat
  total_bytes : Nat
deriving DecidableEq

/-- The response envelope; serialization of the payload is modelled as the
identity (the wire schema is owned by the protocol layer, not this core). -/
structure Response where
  data : ChecksumResponse
deriving DecidableEq

/-- The `ChecksumContext` state: the request, the forward range cursor, and
the optional active scanner. -/
structure ChecksumContext where
  req : ChecksumRequest
  ranges : List KeyRange
  scanner : Option Scanner
deriving DecidableEq

/-- `ChecksumContext::new`: store the request and ranges; no scanner yet. -/
def ChecksumContext.new (req : ChecksumRequest) (ranges : List KeyRange) :
    ChecksumContext :=
  ⟨req, ranges, none⟩

/-! ## The scan state machine: `next_row` (checksum.rs lines 82-105).

The Rust `loop` either returns or, before looping again, consumes one entry
of the range cursor, so the embedding is recursive on the range list. -/

/-- One call of `ChecksumContext::next_row`: poll the active scanner
(counting the poll), yield its next row, or on exhaustion flush its
statistics and rebind to the next range; construct a fresh scanner only
when none exists yet; finish when the cursor is empty.  Returns the yielded
row together with the updated scanner, cursor and metrics. -/
def next_row (rowsOf : KeyRange → List Row) :
    Option Scanner → List KeyRange → ExecutorMetrics →
    Option Row × Option Scanner × List KeyRange × ExecutorMetrics
  | some ⟨row :: rest⟩, ranges, m =>
      (some row, some ⟨rest⟩, ranges, m.inc_range)
  | some ⟨[]⟩, r :: rs, m =>
      next_row rowsOf (some (Scanner.reset_range rowsOf ⟨[]⟩ r)) rs
        (Scanner.collect_statistics_into ⟨[]⟩ m.inc_range)
  | some ⟨[]⟩, [], m =>
      (none, some ⟨[]⟩, [], Scanner.collect_statistics_into ⟨[]⟩ m.inc_range)
  | none, r :: rs, m =>
      next_row rowsOf (some (Scanner.new rowsOf r)) rs m
  | none, [], m => (none, none, [], m)

/-- The rows still pending in an optional scanner. -/
def pendingOf : Option Scanner → List Row
  | some s => s.pending
  | none => []

/-- The full row stream a context state will yield: the pending rows of the
active scanner followed by the rows of every remaining range in cursor
order. -/
def rowsStream (rowsOf : KeyRange → List Row) (sc : Option Scanner)
    (ranges : List KeyRange) : List Row :=
  pendingOf sc ++ (ranges.map rowsOf).flatten

/-- How many statistics flushes a state still owes: one for the active
scanner if present, one per remaining range. -/
def flush_count (sc : Option Scanner) (ranges : List KeyRange) : Nat :=
  (match sc with | some _ => 1 | none => 0) + ranges.length

/-! ## Step lemmas for `next_row`. -/

/-- When `next_row` yields a row, that row is the head of the pending row
stream, the scanner stays bound, and the metrics move by one poll per flush
plus one for the yielded row. -/
theorem next_row_some (rowsOf : KeyRange → List Row) :
    ∀ (ranges : List KeyRange) (sc : Option Scanner) (m : ExecutorMetrics)
      {row : Row} {sc' : Option Scanner} {rs' : List KeyRange}
      {m' : ExecutorMetrics},
      next_row rowsOf sc ranges m = (some row, sc', rs', m') →
      rowsStream rowsOf sc ranges = row :: rowsStream rowsOf sc' rs' ∧
      sc'.isSome = true ∧
      m'.cf_stats + (1 + rs'.length) = m.cf_stats + flush_count sc ranges ∧
      m'.scan_counter + m.cf_stats = m.scan_counter + m'.cf_stats + 1 := by
  intro ranges
  induction ranges with
  | nil =>
      intro sc m row sc' rs' m' h
      match sc with
      | none => simp [next_row] at h
      | some ⟨[]⟩ => simp [next_row] at h
      | some ⟨row0 :: rest⟩ =>
          simp only [next_row, Prod.mk.injEq, Option.some.injEq] at h
          obtain ⟨rfl, rfl, rfl, rfl⟩ := h
          refine ⟨rfl, rfl, ?_, ?_⟩ <;>
            simp only [flush_count, ExecutorMetrics.inc_range,
              List.length_nil] <;> omega
  | cons r rs ih =>
      intro sc m row sc' rs' m' h
      match sc with
      | some ⟨row0 :: rest⟩ =>
          simp only [next_row, Prod.mk.injEq, Option.some.injEq] at h
          obtain ⟨rfl, rfl, rfl, rfl⟩ := h
          refine ⟨rfl, rfl, ?_, ?_⟩ <;>
            simp only [flush_count, ExecutorMetrics.inc_range,
              List.length_cons] <;> omega
      | some ⟨[]⟩ =>
          rw [show next_row rowsOf (some ⟨[]⟩) (r :: rs) m =
              next_row rowsOf (some (Scanner.reset_range rowsOf ⟨[]⟩ r)) rs
                (Scanner.collect_statistics_into ⟨[]⟩ m.inc_range) from rfl] at h
          obtain ⟨hstr, hsome, hcf, hsc⟩ := ih _ _ h
          refine ⟨?_, hsome, ?_, ?_⟩
          · simpa [rowsStream, pendingOf, Scanner.reset_range] using hstr
          · simp only [flush_count, Scanner.collect_statistics_into,
              ExecutorMetrics.inc_range, List.length_cons] at hcf ⊢
            omega
          · simp only [Scanner.collect_statistics_into,
              ExecutorMetrics.inc_range] at hsc ⊢
            omega
      | none =>
          rw [show next_row rowsOf none (r :: rs) m =
              next_row rowsOf (some (Scanner.new rowsOf r)) rs m from rfl] at h
          obtain ⟨hstr, hsome, hcf, hsc⟩ := ih _ _ h
          refine ⟨?_, hsome, ?_, ?_⟩
          · simpa [rowsStream, pendingOf, Scanner.new] using hstr
          · simp only [flush_count, List.length_cons] at hcf ⊢
            omega
          · exact hsc

/-- When `next_row` reports exhaustion, the pending row stream was empty,
the cursor has been fully consumed, the final binding is drained, and every
owed statistics flush has happened, each preceded by its poll. -/
theorem next_row_none (rowsOf : KeyRange → List Row) :
    ∀ (ranges : List KeyRange) (sc : Option Scanner) (m : ExecutorMetrics)
      {sc' : Option Scanner} {rs' : List KeyRange} {m' : ExecutorMetrics},
      next_row rowsOf sc ranges m = (none, sc', rs', m') →
      rowsStream rowsOf sc ranges = [] ∧ rs' = [] ∧ pendingOf sc' = [] ∧
      m'.cf_stats = m.cf_stats + flush_count sc ranges ∧
      m'.scan_counter + m.cf_stats = m.scan_counter + m'.cf_stats := by
  intro ranges
  induction ranges with
  | nil =>
      intro sc m sc' rs' m' h
      match sc with
      | none =>
          simp only [next_row, Prod.mk.injEq] at h
          obtain ⟨-, rfl, rfl, rfl⟩ := h
          exact ⟨rfl, rfl, rfl, rfl, rfl⟩
      | some ⟨[]⟩ =>
          simp only [next_row, Prod.mk.injEq] at h
          obtain ⟨-, rfl, rfl, rfl⟩ := h
          refine ⟨rfl, rfl, rfl, ?_, ?_⟩ <;>
            simp only [flush_count, Scanner.collect_statistics_into,
              ExecutorMetrics.inc_range, List.length_nil] <;> omega
      | some ⟨row0 :: rest⟩ => simp [next_row] at h
  | cons r rs ih =>
      intro sc m sc' rs' m' h
      match sc with
      | some ⟨row0 :: rest⟩ => simp [next_row] at h
      | some ⟨[]⟩ =>
          rw [show next_row rowsOf (some ⟨[]⟩) (r :: rs) m =
              next_row rowsOf (some (Scanner.reset_range rowsOf ⟨[]⟩ r)) rs
                (Scanner.collect_statistics_into ⟨[]⟩ m.inc_range) from rfl] at h
          obtain ⟨hstr, hrs, hpend, hcf, hsc⟩ := ih _ _ h
          refine ⟨?_, hrs, hpend, ?_, ?_⟩
          · simpa [rowsStream, pendingOf, Scanner.reset_range] using hstr
          · simp only [flush_count, Scanner.collect_statistics_into,
              ExecutorMetrics.inc_range, List.length_cons] at hcf ⊢
            omega
          · simp only [Scanner.collect_statistics_into,
              ExecutorMetrics.inc_range] at hsc ⊢
            omega
      | none =>
          rw [show next_row rowsOf none (r :: rs) m =
              next_row rowsOf (some (Scanner.new rowsOf r)) rs m from rfl] at h
          obtain ⟨hstr, hrs, hpend, hcf, hsc⟩ := ih _ _ h
          refine ⟨?_, hrs, hpend, ?_, ?_⟩
          · simpa [rowsStream, pendingOf, Scanner.new] using hstr
          · simp only [flush_count, List.length_cons] at hcf ⊢
            omega
          · exact hsc

/-! ## The scan-and-accumulate loop of `handle_request` (lines 62-74). -/

/-- The `while let Some((k, v)) = self.next_row(metrics)?` loop of
`handle_request`: fold each yielded row into the accumulator with
`checksum_crc64_xor`, count it, add its byte length; on exhaustion return
the three accumulated fields and the final metrics. -/
def scan_loop (rowsOf : KeyRange → List Row) (sc : Option Scanner)
    (ranges : List KeyRange) (m : ExecutorMetrics)
    (checksum total_kvs total_bytes : Nat) :
    ChecksumResponse × ExecutorMetrics :=
  match h : next_row rowsOf sc ranges m with
  | (some row, sc', rs', m') =>
      scan_loop rowsOf sc' rs' m'
        (checksum_crc64_xor checksum row.key row.value)
        (total_kvs + 1) (total_bytes + (row.key.length + row.value.length))
  | (none, _, _, m') => (⟨checksum, total_kvs, total_bytes⟩, m')
termination_by (rowsStream rowsOf sc ranges).length
decreasing_by
  simp_wf
  rw [(next_row_some rowsOf ranges sc m h).1]
  simp

/-- Unfolding equation of `scan_loop` when `next_row` yields a row. -/
theorem scan_loop_some (rowsOf : KeyRange → List Row)
    {sc : Option Scanner} {ranges : List KeyRange} {m : ExecutorMetrics}
    {row : Row} {sc' : Option Scanner} {rs' : List KeyRange}
    {m' : ExecutorMetrics}
    (h : next_row rowsOf sc ranges m = (some row, sc', rs', m'))
    (c k b : Nat) :
    scan_loop rowsOf sc ranges m c k b =
      scan_loop rowsOf sc' rs' m' (checksum_crc64_xor c row.key row.value)
        (k + 1) (b + (row.key.length + row.value.length)) := by
  rw [scan_loop.eq_def]
  split <;> rename_i heq <;> rw [h] at heq <;> simp_all

/-- Unfolding equation of `scan_loop` when `next_row` reports exhaustion. -/
theorem scan_loop_none (rowsOf : KeyRange → List Row)
    {sc : Option Scanner} {ranges : List KeyRange} {m : ExecutorMetrics}
    {sc' : Option Scanner} {rs' : List KeyRange} {m' : ExecutorMetrics}
    (h : next_row rowsOf sc ranges m = (none, sc', rs', m'))
    (c k b : Nat) :
    scan_loop rowsOf sc ranges m c k b = (⟨c, k, b⟩, m') := by
  rw [scan_loop.eq_def]
  split <;> rename_i heq <;> rw [h] at heq <;> simp_all

/-- The checksum accumulator folded over a list of rows, exactly as the
loop body of `handle_request` does it. -/
def checksum_fold (c : Nat) (rows : List Row) : Nat :=
  rows.foldl (fun acc r => checksum_crc64_xor acc r.key r.value) c

/-- Total byte count of a list of rows. -/
def total_bytes_of (rows : List Row) : Nat := (rows.map row_bytes).sum

/-- The rows the whole request will observe: the rows of each range, in cursor
order. -/
def rows_of_ranges (rowsOf : KeyRange → List Row) (ranges : List KeyRange) :
    List Row :=
  (ranges.map rowsOf).flatten

/-- Full characterization of the drain loop: it folds the pending row
stream into the three accumulator fields, counts one poll per row plus one
per owed flush, and performs exactly the owed flushes. -/
theorem scan_loop_spec (rowsOf : KeyRange → List Row) (sc : Option Scanner)
    (ranges : List KeyRange) (m : ExecutorMetrics) (c k b : Nat) :
    scan_loop rowsOf sc ranges m c k b =
      (⟨checksum_fold c (rowsStream rowsOf sc ranges),
        k + (rowsStream rowsOf sc ranges).length,
        b + total_bytes_of (rowsStream rowsOf sc ranges)⟩,
       ⟨m.scan_counter + (rowsStream rowsOf sc ranges).length +
          flush_count sc ranges,
        m.cf_stats + flush_count sc ranges⟩) := by
  induction sc, ranges, m, c, k, b using scan_loop.induct rowsOf with
  | case1 sc ranges m c k b row sc' rs' m' h ih =>
      obtain ⟨hstr, hsome, hcf, hsc⟩ := next_row_some rowsOf ranges sc m h
      obtain ⟨s', rfl⟩ := Option.isSome_iff_exists.mp hsome
      have hlen : (rowsStream rowsOf sc ranges).length =
          (rowsStream rowsOf (some s') rs').length + 1 := by
        rw [hstr]; simp
      rw [scan_loop_some rowsOf h, ih]
      simp only [Prod.mk.injEq, ChecksumResponse.mk.injEq,
        ExecutorMetrics.mk.injEq]
      refine ⟨⟨?_, ?_, ?_⟩, ?_, ?_⟩
      · rw [hstr]; simp [checksum_fold]
      · omega
      · rw [hstr]; simp [total_bytes_of, row_bytes]; omega
      · simp only [flush_count, List.length_cons] at hcf hsc ⊢
        omega
      · simp only [flush_count] at hcf ⊢
        omega
  | case2 sc ranges m c k b sc' rs' m' h =>
      obtain ⟨hstr, hrs, hpend, hcf, hsc⟩ := next_row_none rowsOf ranges sc m h
      obtain ⟨ms, mc⟩ := m'
      rw [scan_loop_none rowsOf h, hstr]
      simp only [checksum_fold, total_bytes_of, List.foldl_nil,
        List.length_nil, List.map_nil, List.sum_nil, Nat.add_zero,
        Prod.mk.injEq, ExecutorMetrics.mk.injEq]
      simp only [ExecutorMetrics.cf_stats, ExecutorMetrics.scan_counter]
        at hcf hsc
      exact ⟨trivial, by omega, by omega⟩

/-! ## `handle_request` (checksum.rs lines 56-80). -/

/-- Line-by-line embedding of `ChecksumContext::handle_request`: reject any
algorithm other than `Crc64_Xor` with a `box_err` before touching anything,
otherwise drain every row through `next_row`, accumulating checksum, row
count and byte count, and serialize the three fields into the response. -/
def handle_request (rowsOf : KeyRange → List Row) (ctx : ChecksumContext)
    (m : ExecutorMetrics) : Except CopError Response × ExecutorMetrics :=
  if ctx.req.algorithm ≠ ChecksumAlgorithm.crc64Xor then
    (Except.error (CopError.unknown_algorithm ctx.req.algorithm), m)
  else
    match scan_loop rowsOf ctx.scanner ctx.ranges m 0 0 0 with
    | (resp, m') => (Except.ok ⟨resp⟩, m')

/-- A freshly constructed context under the supported algorithm runs the
whole request: the response folds every row of every range in cursor order,
and the metrics gain one poll per row plus one per range, and one
statistics flush per range. -/
theorem handle_request_run (rowsOf : KeyRange → List Row)
    (req : ChecksumRequest) (ranges : List KeyRange) (m : ExecutorMetrics)
    (halg : req.algorithm = ChecksumAlgorithm.crc64Xor) :
    handle_request rowsOf (ChecksumContext.new req ranges) m =
      (Except.ok ⟨⟨checksum_fold 0 (rows_of_ranges rowsOf ranges),
        (rows_of_ranges rowsOf ranges).length,
        total_bytes_of (rows_of_ranges rowsOf ranges)⟩⟩,
       ⟨m.scan_counter + (rows_of_ranges rowsOf ranges).length +
          ranges.length,
        m.cf_stats + ranges.length⟩) := by
  have hstream : rowsStream rowsOf none ranges = rows_of_ranges rowsOf ranges := by
    simp [rowsStream, pendingOf, rows_of_ranges]
  have hfc : flush_count none ranges = ranges.length := by
    simp [flush_count]
  simp only [handle_request, ChecksumContext.new, halg, ne_eq,
    not_true_eq_false, if_false, scan_loop_spec, hstream, hfc,
    Nat.zero_add]

/-! ## Digest composition: two consecutive writes hash the concatenation. -/

/-- The crc update composes over concatenation: the entry and exit
complements of consecutive `update` calls cancel. -/
theorem crcUpdate_crcUpdate (a : Nat) (k v : List Nat) :
    crcUpdate (crcUpdate a k) v = crcUpdate a (k ++ v) := by
  simp [crcUpdate, List.foldl_append, Nat.xor_cancel_right]

/-- Writing the key bytes then the value bytes into a fresh digest yields
the CRC64 (ECMA-182) of the key bytes immediately followed by the value
bytes: no separator, no length prefix. -/
theorem digest_two_writes (k v : List Nat) :
    (((Digest.new).write k).write v).sum64 = crc64_ecma (k ++ v) := by
  simp [Digest.new, Digest.write, Digest.sum64, crc64_ecma,
    crcUpdate_crcUpdate]

/-! ## Permutation invariance of the accumulator fold. -/

/-- The xor-fold of row digests is invariant under permutation of the rows:
xor is commutative and associative. -/
theorem checksum_fold_perm {l1 l2 : List Row} (h : l1.Perm l2) :
    ∀ c, checksum_fold c l1 = checksum_fold c l2 := by
  induction h with
  | nil => intro c; rfl
  | cons x _h ih =>
      intro c
      simp only [checksum_fold, List.foldl_cons] at ih ⊢
      exact ih _
  | swap x y l =>
      intro c
      simp only [checksum_fold, List.foldl_cons, checksum_crc64_xor]
      rw [Nat.xor_assoc, Nat.xor_assoc,
        Nat.xor_comm (((Digest.new.write y.key).write y.value).sum64)]
  | trans _h1 _h2 ih1 ih2 => intro c; rw [ih1, ih2]

/-- The total byte count is invariant under permutation of the rows. -/
theorem total_bytes_of_perm {l1 l2 : List Row} (h : l1.Perm l2) :
    total_bytes_of l1 = total_bytes_of l2 :=
  (h.map row_bytes).sum_eq

/-! ## The row sequence produced by repeated `next_row` calls. -/

/-- The list of rows obtained by driving `next_row` to exhaustion from a
given state. -/
def row_seq (rowsOf : KeyRange → List Row) (sc : Option Scanner)
    (ranges : List KeyRange) (m : ExecutorMetrics) : List Row :=
  match h : next_row rowsOf sc ranges m with
  | (some row, sc', rs', m') => row :: row_seq rowsOf sc' rs' m'
  | (none, _, _, _) => []
termination_by (rowsStream rowsOf sc ranges).length
decreasing_by
  simp_wf
  rw [(next_row_some rowsOf ranges sc m h).1]
  simp

/-- Unfolding equation of `row_seq` when `next_row` yields a row. -/
theorem row_seq_some (rowsOf : KeyRange → List Row)
    {sc : Option Scanner} {ranges : List KeyRange} {m : ExecutorMetrics}
    {row : Row} {sc' : Option Scanner} {rs' : List KeyRange}
    {m' : ExecutorMetrics}
    (h : next_row rowsOf sc ranges m = (some row, sc', rs', m')) :
    row_seq rowsOf sc ranges m = row :: row_seq rowsOf sc' rs' m' := by
  rw [row_seq.eq_def]
  split <;> rename_i heq <;> rw [h] at heq <;> simp_all

/-- Unfolding equation of `row_seq` when `next_row` reports exhaustion. -/
theorem row_seq_none (rowsOf : KeyRange → List Row)
    {sc : Option Scanner} {ranges : List KeyRange} {m : ExecutorMetrics}
    {sc' : Option Scanner} {rs' : List KeyRange} {m' : ExecutorMetrics}
    (h : next_row rowsOf sc ranges m = (none, sc', rs', m')) :
    row_seq rowsOf sc ranges m = [] := by
  rw [row_seq.eq_def]
  split <;> rename_i heq <;> rw [h] at heq <;> simp_all

/-- The produced row sequence is exactly the pending row stream: no row is
skipped and none is duplicated. -/
theorem row_seq_eq_stream (rowsOf : KeyRange → List Row)
    (sc : Option Scanner) (ranges : List KeyRange) (m : ExecutorMetrics) :
    row_seq rowsOf sc ranges m = rowsStream rowsOf sc ranges := by
  induction sc, ranges, m using row_seq.induct rowsOf with
  | case1 sc ranges m row sc' rs' m' h ih =>
      rw [row_seq_some rowsOf h, ih, (next_row_some rowsOf ranges sc m h).1]
  | case2 sc ranges m sc' rs' m' h =>
      rw [row_seq_none rowsOf h, (next_row_none rowsOf ranges sc m h).1]

/-! ## Fuelled mirrors of the two loops, for the termination claim.

`next_row_fuel` mirrors the unstructured Rust `loop` iteration by
iteration; `scan_loop_fuel` mirrors the `while let` of `handle_request`
pull by pull.  `none` means the fuel ran out before the loop returned. -/

/-- The body of the Rust `loop` in `next_row`, one unit of fuel per
iteration. -/
def next_row_fuel (rowsOf : KeyRange → List Row) :
    Nat → Option Scanner → List KeyRange → ExecutorMetrics →
    Option (Option Row × Option Scanner × List KeyRange × ExecutorMetrics)
  | 0, _, _, _ => none
  | _ + 1, some ⟨row :: rest⟩, ranges, m =>
      some (some row, some ⟨rest⟩, ranges, m.inc_range)
  | fuel + 1, some ⟨[]⟩, r :: rs, m =>
      next_row_fuel rowsOf fuel (some (Scanner.reset_range rowsOf ⟨[]⟩ r)) rs
        (Scanner.collect_statistics_into ⟨[]⟩ m.inc_range)
  | _ + 1, some ⟨[]⟩, [], m =>
      some (none, some ⟨[]⟩, [], Scanner.collect_statistics_into ⟨[]⟩ m.inc_range)
  | fuel + 1, none, r :: rs, m =>
      next_row_fuel rowsOf fuel (some (Scanner.new rowsOf r)) rs m
  | _ + 1, none, [], m => some (none, none, [], m)

/-- One more unit of fuel than the length of the range cursor always
suffices for the `next_row` loop: every iteration either returns or
consumes one range. -/
theorem next_row_fuel_enough (rowsOf : KeyRange → List Row) :
    ∀ (ranges : List KeyRange) (sc : Option Scanner) (m : ExecutorMetrics),
      next_row_fuel rowsOf (ranges.length + 1) sc ranges m =
        some (next_row rowsOf sc ranges m) := by
  intro ranges
  induction ranges with
  | nil =>
      intro sc m
      match sc with
      | none => rfl
      | some ⟨[]⟩ => rfl
      | some ⟨row :: rest⟩ => rfl
  | cons r rs ih =>
      intro sc m
      match sc with
      | some ⟨row :: rest⟩ => rfl
      | some ⟨[]⟩ => exact ih _ _
      | none => exact ih _ _

/-- The `while let` loop of `handle_request`, one unit of fuel per pull. -/
def scan_loop_fuel (rowsOf : KeyRange → List Row) :
    Nat → Option Scanner → List KeyRange → ExecutorMetrics →
    Nat → Nat → Nat → Option (ChecksumResponse × ExecutorMetrics)
  | 0, _, _, _, _, _, _ => none
  | fuel + 1, sc, ranges, m, c, k, b =>
      match next_row rowsOf sc ranges m with
      | (some row, sc', rs', m') =>
          scan_loop_fuel rowsOf fuel sc' rs' m'
            (checksum_crc64_xor c row.key row.value)
            (k + 1) (b + (row.key.length + row.value.length))
      | (none, _, _, m') => some (⟨c, k, b⟩, m')

/-- One more pull than the number of pending rows always suffices for the
scan-and-accumulate loop of `handle_request`. -/
theorem scan_loop_fuel_enough (rowsOf : KeyRange → List Row) :
    ∀ (n : Nat) (sc : Option Scanner) (ranges : List KeyRange)
      (m : ExecutorMetrics) (c k b : Nat),
      (rowsStream rowsOf sc ranges).length ≤ n →
      scan_loop_fuel rowsOf (n + 1) sc ranges m c k b =
        some (scan_loop rowsOf sc ranges m c k b) := by
  intro n
  induction n with
  | zero =>
      intro sc ranges m c k b hlen
      rcases h : next_row rowsOf sc ranges m with ⟨o, sc', rs', m'⟩
      match o with
      | some row =>
          have hstr := (next_row_some rowsOf ranges sc m h).1
          rw [hstr] at hlen
          simp at hlen
      | none =>
          rw [scan_loop_none rowsOf h]
          simp [scan_loop_fuel, h]
  | succ n ih =>
      intro sc ranges m c k b hlen
      rcases h : next_row rowsOf sc ranges m with ⟨o, sc', rs', m'⟩
      match o with
      | some row =>
          have hstr := (next_row_some rowsOf ranges sc m h).1
          have hlen' : (rowsStream rowsOf sc' rs').length ≤ n := by
            rw [hstr] at hlen
            simp at hlen
            omega
          rw [scan_loop_some rowsOf h]
          rw [show scan_loop_fuel rowsOf (n + 1 + 1) sc ranges m c k b =
              scan_loop_fuel rowsOf (n + 1) sc' rs' m'
                (checksum_crc64_xor c row.key row.value)
                (k + 1) (b + (row.key.length + row.value.length)) by
            simp [scan_loop_fuel, h]]
          exact ih _ _ _ _ _ _ hlen'
      | none =>
          rw [scan_loop_none rowsOf h]
          simp [scan_loop_fuel, h]

/-! ## The generalized reset-reuse step and its fresh-per-range reference,
for the binding-reuse claim.  `next_rowR` abstracts over the reset
operation of the row source; `next_row_fresh` constructs a fresh row
source for every range. -/

/-- `next_row` with the reset operation of the row source abstracted. -/
def next_rowR (rowsOf : KeyRange → List Row)
    (reset : Scanner → KeyRange → Scanner) :
    Option Scanner → List KeyRange → ExecutorMetrics →
    Option Row × Option Scanner × List KeyRange × ExecutorMetrics
  | some ⟨row :: rest⟩, ranges, m =>
      (some row, some ⟨rest⟩, ranges, m.inc_range)
  | some ⟨[]⟩, r :: rs, m =>
      next_rowR rowsOf reset (some (reset ⟨[]⟩ r)) rs
        (Scanner.collect_statistics_into ⟨[]⟩ m.inc_range)
  | some ⟨[]⟩, [], m =>
      (none, some ⟨[]⟩, [], Scanner.collect_statistics_into ⟨[]⟩ m.inc_range)
  | none, r :: rs, m =>
      next_rowR rowsOf reset (some (Scanner.new rowsOf r)) rs m
  | none, [], m => (none, none, [], m)

/-- Reference implementation: construct a fresh row source for every range
instead of resetting the existing one. -/
def next_row_fresh (rowsOf : KeyRange → List Row) :
    Option Scanner → List KeyRange → ExecutorMetrics →
    Option Row × Option Scanner × List KeyRange × ExecutorMetrics
  | some ⟨row :: rest⟩, ranges, m =>
      (some row, some ⟨rest⟩, ranges, m.inc_range)
  | some ⟨[]⟩, r :: rs, m =>
      next_row_fresh rowsOf (some (Scanner.new rowsOf r)) rs
        (Scanner.collect_statistics_into ⟨[]⟩ m.inc_range)
  | some ⟨[]⟩, [], m =>
      (none, some ⟨[]⟩, [], Scanner.collect_statistics_into ⟨[]⟩ m.inc_range)
  | none, r :: rs, m =>
      next_row_fresh rowsOf (some (Scanner.new rowsOf r)) rs m
  | none, [], m => (none, none, [], m)

/-- The embedded `next_row` is the reset-reuse instance of the generalized
step. -/
theorem next_row_eq_next_rowR (rowsOf : KeyRange → List Row) :
    ∀ (ranges : List KeyRange) (sc : Option Scanner) (m : ExecutorMetrics),
      next_row rowsOf sc ranges m =
        next_rowR rowsOf (Scanner.reset_range rowsOf) sc ranges m := by
  intro ranges
  induction ranges with
  | nil =>
      intro sc m
      match sc with
      | none => rfl
      | some ⟨[]⟩ => rfl
      | some ⟨row :: rest⟩ => rfl
  | cons r rs ih =>
      intro sc m
      match sc with
      | some ⟨row :: rest⟩ => rfl
      | some ⟨[]⟩ => exact ih _ _
      | none => exact ih _ _

/-- Under the hypothesis that reset is observably equivalent to
destroy-then-bind, the reset-reuse step and the fresh-per-range reference
agree on every state: same yielded rows, same final state, same metrics. -/
theorem next_rowR_eq_fresh (rowsOf : KeyRange → List Row)
    (reset : Scanner → KeyRange → Scanner)
    (hres : ∀ s r, reset s r = Scanner.new rowsOf r) :
    ∀ (ranges : List KeyRange) (sc : Option Scanner) (m : ExecutorMetrics),
      next_rowR rowsOf reset sc ranges m =
        next_row_fresh rowsOf sc ranges m := by
  intro ranges
  induction ranges with
  | nil =>
      intro sc m
      match sc with
      | none => rfl
      | some ⟨[]⟩ => rfl
      | some ⟨row :: rest⟩ => rfl
  | cons r rs ih =>
      intro sc m
      match sc with
      | some ⟨row :: rest⟩ => rfl
      | some ⟨[]⟩ =>
          rw [show next_rowR rowsOf reset (some ⟨[]⟩) (r :: rs) m =
              next_rowR rowsOf reset (some (reset ⟨[]⟩ r)) rs
                (Scanner.collect_statistics_into ⟨[]⟩ m.inc_range) from rfl,
            hres]
          exact ih _ _
      | none => exact ih _ _

/-! ## The fallible row source.

Modelled from the spec: the row source may fail at construction, at reset,
or at any `next` call (consistency violation, storage error, malformed
range).  A fallible scanner holds, for its current range, the sequence of
poll outcomes still to come; the source says, per range, whether binding
(construction) or rebinding (reset) succeeds and with which outcomes. -/

/-- A row source binding whose polls can fail. -/
structure ScannerE where
  pending : List (Except CopError Row)

/-- The behaviour of the snapshot-backed row source: outcome of
constructing a scanner for a range, and outcome of resetting an existing
scanner to a range. -/
structure SourceE where
  bind_rows : KeyRange → Except CopError (List (Except CopError Row))
  reset_rows : KeyRange → Except CopError (List (Except CopError Row))

/-- The poll outcomes still pending in an optional fallible scanner. -/
def pendingOfE : Option ScannerE → List (Except CopError Row)
  | some s => s.pending
  | none => []

/-- `next_row` over the fallible row source: identical control flow to
`next_row`, with the three `?`-propagation points of the code: the
`scanner.next_row()?` poll, the `box_try!(scanner.reset_range(..))`, and
the `self.new_scanner(range)?` construction.  A propagated error is
returned unchanged together with the metrics as already mutated. -/
def next_rowE (src : SourceE) :
    Option ScannerE → List KeyRange → ExecutorMetrics →
    Except CopError (Option Row) × Option ScannerE × List KeyRange ×
      ExecutorMetrics
  | some ⟨Except.ok row :: rest⟩, ranges, m =>
      (Except.ok (some row), some ⟨rest⟩, ranges, m.inc_range)
  | some ⟨Except.error e :: rest⟩, ranges, m =>
      (Except.error e, some ⟨rest⟩, ranges, m.inc_range)
  | some ⟨[]⟩, r :: rs, m =>
      match src.reset_rows r with
      | Except.error e =>
          (Except.error e, none, rs,
            ⟨m.scan_counter + 1, m.cf_stats + 1⟩)
      | Except.ok rows =>
          next_rowE src (some ⟨rows⟩) rs ⟨m.scan_counter + 1, m.cf_stats + 1⟩
  | some ⟨[]⟩, [], m =>
      (Except.ok none, some ⟨[]⟩, [], ⟨m.scan_counter + 1, m.cf_stats + 1⟩)
  | none, r :: rs, m =>
      match src.bind_rows r with
      | Except.error e => (Except.error e, none, rs, m)
      | Except.ok rows => next_rowE src (some ⟨rows⟩) rs m
  | none, [], m => (Except.ok none, none, [], m)

/-- The length of a successful outcome list, zero for a failure. -/
def exlen : Except CopError (List (Except CopError Row)) → Nat
  | Except.ok l => l.length
  | Except.error _ => 0

/-- Termination measure for the fallible drain: pending outcomes plus, for
every remaining range, one unit for consuming it and an upper bound on the
outcomes it could contribute. -/
def measureE (src : SourceE) (sc : Option ScannerE)
    (ranges : List KeyRange) : Nat :=
  (pendingOfE sc).length +
    (ranges.map (fun r =>
      1 + exlen (src.bind_rows r) + exlen (src.reset_rows r))).sum

/-- A successful yielded row strictly decreases the fallible measure. -/
theorem next_rowE_measure (src : SourceE) :
    ∀ (ranges : List KeyRange) (sc : Option ScannerE) (m : ExecutorMetrics)
      {row : Row} {sc' : Option ScannerE} {rs' : List KeyRange}
      {m' : ExecutorMetrics},
      next_rowE src sc ranges m = (Except.ok (some row), sc', rs', m') →
      measureE src sc' rs' < measureE src sc ranges := by
  intro ranges
  induction ranges with
  | nil =>
      intro sc m row sc' rs' m' h
      match sc with
      | none => simp [next_rowE] at h
      | some ⟨[]⟩ => simp [next_rowE] at h
      | some ⟨Except.error e :: rest⟩ => simp [next_rowE] at h
      | some ⟨Except.ok row0 :: rest⟩ =>
          simp only [next_rowE, Prod.mk.injEq, Except.ok.injEq,
            Option.some.injEq] at h
          obtain ⟨rfl, rfl, rfl, rfl⟩ := h
          simp [measureE, pendingOfE]
  | cons r rs ih =>
      intro sc m row sc' rs' m' h
      match sc with
      | some ⟨Except.ok row0 :: rest⟩ =>
          simp only [next_rowE, Prod.mk.injEq, Except.ok.injEq,
            Option.some.injEq] at h
          obtain ⟨rfl, rfl, rfl, rfl⟩ := h
          simp [measureE, pendingOfE]
      | some ⟨Except.error e :: rest⟩ => simp [next_rowE] at h
      | some ⟨[]⟩ =>
          rw [show next_rowE src (some ⟨[]⟩) (r :: rs) m =
              (match src.reset_rows r with
               | Except.error e =>
                   (Except.error e, none, rs,
                     ⟨m.scan_counter + 1, m.cf_stats + 1⟩)
               | Except.ok rows =>
                   next_rowE src (some ⟨rows⟩) rs
                     ⟨m.scan_counter + 1, m.cf_stats + 1⟩) from rfl] at h
          rcases hr : src.reset_rows r with e | rows
          · rw [hr] at h; simp at h
          · rw [hr] at h
            have hlt := ih _ _ h
            have hub : (pendingOfE (some ⟨rows⟩)).length ≤
                exlen (src.reset_rows r) := by
              simp [pendingOfE, exlen, hr]
            simp only [measureE, pendingOfE, List.map_cons, List.sum_cons]
              at hlt hub ⊢
            omega
      | none =>
          rw [show next_rowE src none (r :: rs) m =
              (match src.bind_rows r with
               | Except.error e => (Except.error e, none, rs, m)
               | Except.ok rows => next_rowE src (some ⟨rows⟩) rs m)
              from rfl] at h
          rcases hr : src.bind_rows r with e | rows
          · rw [hr] at h; simp at h
          · rw [hr] at h
            have hlt := ih _ _ h
            have hub : (pendingOfE (some ⟨rows⟩)).length ≤
                exlen (src.bind_rows r) := by
              simp [pendingOfE, exlen, hr]
            simp only [measureE, pendingOfE, List.map_cons, List.sum_cons]
              at hlt hub ⊢
            omega

/-- The `while let` drain of `handle_request` over the fallible source:
the `?` on `self.next_row(metrics)` aborts the loop with the propagated
error, keeping the metrics already accumulated. -/
def scan_loopE (src : SourceE) (sc : Option ScannerE)
    (ranges : List KeyRange) (m : ExecutorMetrics)
    (checksum total_kvs total_bytes : Nat) :
    Except CopError ChecksumResponse × ExecutorMetrics :=
  match h : next_rowE src sc ranges m with
  | (Except.ok (some row), sc', rs', m') =>
      scan_loopE src sc' rs' m'
        (checksum_crc64_xor checksum row.key row.value)
        (total_kvs + 1) (total_bytes + (row.key.length + row.value.length))
  | (Except.ok none, _, _, m') =>
      (Except.ok ⟨checksum, total_kvs, total_bytes⟩, m')
  | (Except.error e, _, _, m') => (Except.error e, m')
termination_by measureE src sc ranges
decreasing_by
  exact next_rowE_measure src ranges sc m h

/-- Unfolding equation of `scan_loopE` on a successful row. -/
theorem scan_loopE_some (src : SourceE)
    {sc : Option ScannerE} {ranges : List KeyRange} {m : ExecutorMetrics}
    {row : Row} {sc' : Option ScannerE} {rs' : List KeyRange}
    {m' : ExecutorMetrics}
    (h : next_rowE src sc ranges m = (Except.ok (some row), sc', rs', m'))
    (c k b : Nat) :
    scan_loopE src sc ranges m c k b =
      scan_loopE src sc' rs' m' (checksum_crc64_xor c row.key row.value)
        (k + 1) (b + (row.key.length + row.value.length)) := by
  rw [scan_loopE.eq_def]
  split <;> rename_i heq <;> rw [h] at heq <;> simp_all

/-- Unfolding equation of `scan_loopE` on exhaustion. -/
theorem scan_loopE_none (src : SourceE)
    {sc : Option ScannerE} {ranges : List KeyRange} {m : ExecutorMetrics}
    {sc' : Option ScannerE} {rs' : List KeyRange} {m' : ExecutorMetrics}
    (h : next_rowE src sc ranges m = (Except.ok none, sc', rs', m'))
    (c k b : Nat) :
    scan_loopE src sc ranges m c k b = (Except.ok ⟨c, k, b⟩, m') := by
  rw [scan_loopE.eq_def]
  split <;> rename_i heq <;> rw [h] at heq <;> simp_all

/-- Unfolding equation of `scan_loopE` on a propagated error: the drain
aborts with exactly that error and the metrics mutated so far. -/
theorem scan_loopE_err (src : SourceE)
    {sc : Option ScannerE} {ranges : List KeyRange} {m : ExecutorMetrics}
    {e : CopError} {sc' : Option ScannerE} {rs' : List KeyRange}
    {m' : ExecutorMetrics}
    (h : next_rowE src sc ranges m = (Except.error e, sc', rs', m'))
    (c k b : Nat) :
    scan_loopE src sc ranges m c k b = (Except.error e, m') := by
  rw [scan_loopE.eq_def]
  split <;> rename_i heq <;> rw [h] at heq <;> simp_all

/-- The fallible `ChecksumContext`. -/
structure ChecksumContextE where
  req : ChecksumRequest
  ranges : List KeyRange
  scanner : Option ScannerE

/-- `handle_request` over the fallible row source: same algorithm check,
then the fallible drain. -/
def handle_requestE (src : SourceE) (ctx : ChecksumContextE)
    (m : ExecutorMetrics) : Except CopError Response × ExecutorMetrics :=
  if ctx.req.algorithm ≠ ChecksumAlgorithm.crc64Xor then
    (Except.error (CopError.unknown_algorithm ctx.req.algorithm), m)
  else
    match scan_loopE src ctx.scanner ctx.ranges m 0 0 0 with
    | (Except.ok resp, m') => (Except.ok ⟨resp⟩, m')
    | (Except.error e, m') => (Except.error e, m')

/-- Congruence in the accumulator arguments of the fallible drain. -/
theorem scan_loopE_arg_congr (src : SourceE) (sc : Option ScannerE)
    (ranges : List KeyRange) {m1 m2 : ExecutorMetrics}
    {c1 c2 k1 k2 b1 b2 : Nat} (hm : m1 = m2) (hc : c1 = c2) (hk : k1 = k2)
    (hb : b1 = b2) :
    scan_loopE src sc ranges m1 c1 k1 b1 =
      scan_loopE src sc ranges m2 c2 k2 b2 := by
  rw [hm, hc, hk, hb]

/-- Draining a run of successful polls: each yields its row, counts one
poll, and folds into the accumulator. -/
theorem scan_loopE_consume_oks (src : SourceE) :
    ∀ (rows : List Row) (tail : List (Except CopError Row))
      (ranges : List KeyRange) (m : ExecutorMetrics) (c k b : Nat),
      scan_loopE src (some ⟨rows.map Except.ok ++ tail⟩) ranges m c k b =
        scan_loopE src (some ⟨tail⟩) ranges
          ⟨m.scan_counter + rows.length, m.cf_stats⟩
          (checksum_fold c rows) (k + rows.length)
          (b + total_bytes_of rows) := by
  intro rows
  induction rows with
  | nil =>
      intro tail ranges m c k b
      simp [checksum_fold, total_bytes_of]
  | cons row rows ih =>
      intro tail ranges m c k b
      have hstep : next_rowE src (some ⟨(row :: rows).map Except.ok ++ tail⟩)
          ranges m =
          (Except.ok (some row), some ⟨rows.map Except.ok ++ tail⟩, ranges,
            m.inc_range) := by
        simp [next_rowE]
      rw [scan_loopE_some src hstep, ih]
      simp only [ExecutorMetrics.inc_range, List.length_cons,
        checksum_fold, total_bytes_of, List.foldl_cons, List.map_cons,
        List.sum_cons, row_bytes]
      exact scan_loopE_arg_congr src _ _
        (by have h : m.scan_counter + 1 + rows.length =
              m.scan_counter + (rows.length + 1) := by omega
            rw [h]) rfl
        (by omega) (by omega)

/-! ## Concrete fixtures for the witnesses. -/

/-- Empty metrics accumulator. -/
def m0 : ExecutorMetrics := ⟨0, 0⟩

/-- A request with the supported algorithm. -/
def fxReq : ChecksumRequest := ⟨ChecksumAlgorithm.crc64Xor, ChecksumScanOn.table, 0⟩

/-- A request with an unsupported algorithm tag. -/
def fxReqBad : ChecksumRequest :=
  ⟨ChecksumAlgorithm.unsupported 3, ChecksumScanOn.table, 0⟩

/-- Two distinct key ranges. -/
def rangeA : KeyRange := ⟨[0], [1]⟩

/-- Second fixture range. -/
def rangeB : KeyRange := ⟨[1], [2]⟩

/-- The single-row fixture of the spec: key "k1", value "v1". -/
def rowK1V1 : Row := ⟨[107, 49], [118, 49]⟩

/-- A one-byte-key fixture row. -/
def rowX : Row := ⟨[120], [1]⟩

/-- Another one-byte-key fixture row. -/
def rowY : Row := ⟨[121], [2]⟩

/-- A snapshot yielding the "k1"/"v1" row for every range. -/
def fxRowsOf1 : KeyRange → List Row := fun _ => [rowK1V1]

/-- A snapshot yielding `rowX` on `rangeA` and `rowY` elsewhere. -/
def fxRowsSwap : KeyRange → List Row := fun r =>
  if r = rangeA then [rowX] else [rowY]

/-- A concrete source error. -/
def fxErr : CopError := CopError.source 7

/-- A fallible source failing at every construction. -/
def fxSrcBindErr : SourceE :=
  ⟨fun _ => Except.error fxErr, fun _ => Except.ok []⟩

/-- A fallible source failing at every reset. -/
def fxSrcResetErr : SourceE :=
  ⟨fun _ => Except.ok [], fun _ => Except.error fxErr⟩

/-- A fallible source whose ranges fail at the first poll. -/
def fxSrcNextErr : SourceE :=
  ⟨fun _ => Except.ok [Except.error fxErr], fun _ => Except.ok []⟩

/-- A fallible source yielding one good row and then a poll failure. -/
def fxSrcMidErr : SourceE :=
  ⟨fun _ => Except.ok [Except.ok rowX, Except.error fxErr],
    fun _ => Except.ok []⟩

/-- A fallible source with a good first range and a second range whose
first poll fails. -/
def fxSrcTwoRange : SourceE :=
  ⟨fun _ => Except.ok [Except.ok rowX],
    fun _ => Except.ok [Except.error fxErr]⟩

/-! ## The claims. -/

/-- C1: For every row (key, value) folded by `handle_request`, the
row-local digest is the CRC64 digest with the ECMA-182 polynomial of the
key bytes immediately followed by the value bytes (no separator, no length
prefix), and it is combined into the running accumulator by bitwise XOR;
with a zero initial accumulator, the final checksum of a single row equals that
digest. -/
theorem C1_row_digest (c : Nat) (k v : List Nat) :
    checksum_crc64_xor c k v = c ^^^ crc64_ecma (k ++ v) ∧
    ∀ (rowsOf : KeyRange → List Row) (req : ChecksumRequest) (r : KeyRange)
      (m : ExecutorMetrics),
      req.algorithm = ChecksumAlgorithm.crc64Xor → rowsOf r = [⟨k, v⟩] →
      (handle_request rowsOf (ChecksumContext.new req [r]) m).1 =
        Except.ok ⟨⟨crc64_ecma (k ++ v), 1, k.length + v.length⟩⟩ := by
  refine ⟨by simp [checksum_crc64_xor, digest_two_writes], ?_⟩
  intro rowsOf req r m halg hrow
  rw [handle_request_run rowsOf req [r] m halg]
  simp [rows_of_ranges, hrow, checksum_fold, total_bytes_of, row_bytes,
    checksum_crc64_xor, digest_two_writes]

/-- Witness for C1 at the spec fixture: key "k1" (bytes 107, 49), value
"v1" (bytes 118, 49). -/
theorem C1_row_digest_witness :
    fxReq.algorithm = ChecksumAlgorithm.crc64Xor ∧
    fxRowsOf1 rangeA = [⟨[107, 49], [118, 49]⟩] ∧
    (handle_request fxRowsOf1 (ChecksumContext.new fxReq [rangeA]) m0).1 =
      Except.ok ⟨⟨crc64_ecma ([107, 49] ++ [118, 49]), 1, 4⟩⟩ :=
  ⟨rfl, rfl, by
    have h := (C1_row_digest 0 [107, 49] [118, 49]).2 fxRowsOf1 fxReq rangeA
      m0 rfl rfl
    simpa using h⟩

/-- C2: For every finite multiset of rows and every way of presenting it
to the engine — any permutation of the ranges and any permutation of rows
within each range, the same underlying key-value set — the final
(checksum, total_kvs, total_bytes) produced by `handle_request` is
identical: the XOR fold is permutation invariant. -/
theorem C2_result_perm_invariant
    (rowsOfL rowsOfR : KeyRange → List Row)
    (rangesL rangesR : List KeyRange) (reqL reqR : ChecksumRequest)
    (mL mR : ExecutorMetrics)
    (hL : reqL.algorithm = ChecksumAlgorithm.crc64Xor)
    (hR : reqR.algorithm = ChecksumAlgorithm.crc64Xor)
    (hperm : (rows_of_ranges rowsOfL rangesL).Perm
      (rows_of_ranges rowsOfR rangesR)) :
    (handle_request rowsOfL (ChecksumContext.new reqL rangesL) mL).1 =
      (handle_request rowsOfR (ChecksumContext.new reqR rangesR) mR).1 := by
  rw [handle_request_run rowsOfL reqL rangesL mL hL,
    handle_request_run rowsOfR reqR rangesR mR hR]
  simp [checksum_fold_perm hperm 0, hperm.length_eq, total_bytes_of_perm hperm]

/-- Witness for C2: the same two rows presented as two ranges in either
order give the same response. -/
theorem C2_result_perm_invariant_witness :
    (rows_of_ranges fxRowsSwap [rangeA, rangeB]).Perm
      (rows_of_ranges fxRowsSwap [rangeB, rangeA]) ∧
    (handle_request fxRowsSwap
        (ChecksumContext.new fxReq [rangeA, rangeB]) m0).1 =
      (handle_request fxRowsSwap
        (ChecksumContext.new fxReq [rangeB, rangeA]) m0).1 :=
  ⟨by decide,
    C2_result_perm_invariant fxRowsSwap fxRowsSwap [rangeA, rangeB]
      [rangeB, rangeA] fxReq fxReq m0 m0 rfl rfl (by decide)⟩

/-- C3: If the algorithm of the request is not CRC64_XOR, `handle_request`
fails immediately with the unsupported-algorithm error before any
scanning: the result does not depend on the row source at all (both the
infallible and the fallible embedding are quantified over every possible
source), and the metrics accumulator of the caller is returned unchanged. -/
theorem C3_unsupported_algorithm_rejected (req : ChecksumRequest)
    (h : req.algorithm ≠ ChecksumAlgorithm.crc64Xor) :
    (∀ (rowsOf : KeyRange → List Row) (ranges : List KeyRange)
       (sc : Option Scanner) (m : ExecutorMetrics),
       handle_request rowsOf ⟨req, ranges, sc⟩ m =
         (Except.error (CopError.unknown_algorithm req.algorithm), m)) ∧
    (∀ (src : SourceE) (ranges : List KeyRange) (sc : Option ScannerE)
       (m : ExecutorMetrics),
       handle_requestE src ⟨req, ranges, sc⟩ m =
         (Except.error (CopError.unknown_algorithm req.algorithm), m)) := by
  constructor
  · intro rowsOf ranges sc m
    simp [handle_request, h]
  · intro src ranges sc m
    simp [handle_requestE, h]

/-- Witness for C3 with a concrete unsupported tag. -/
theorem C3_unsupported_algorithm_rejected_witness :
    fxReqBad.algorithm ≠ ChecksumAlgorithm.crc64Xor ∧
    handle_request fxRowsOf1 ⟨fxReqBad, [rangeA], none⟩ m0 =
      (Except.error (CopError.unknown_algorithm fxReqBad.algorithm), m0) :=
  ⟨by decide,
    (C3_unsupported_algorithm_rejected fxReqBad (by decide)).1
      fxRowsOf1 [rangeA] none m0⟩

/-- C4: For every successful run of `handle_request`, `total_bytes` is the
exact sum of key length plus value length over every row observed across
all ranges, and `total_kvs` is the number of observed rows. -/
theorem C4_totals_exact (rowsOf : KeyRange → List Row)
    (req : ChecksumRequest) (ranges : List KeyRange) (m : ExecutorMetrics)
    (halg : req.algorithm = ChecksumAlgorithm.crc64Xor) :
    (handle_request rowsOf (ChecksumContext.new req ranges) m).1 =
      Except.ok ⟨⟨checksum_fold 0 (rows_of_ranges rowsOf ranges),
        (rows_of_ranges rowsOf ranges).length,
        total_bytes_of (rows_of_ranges rowsOf ranges)⟩⟩ := by
  rw [handle_request_run rowsOf req ranges m halg]

/-- Witness for C4: a single row with a 2-byte key and a 2-byte value
yields total_bytes 4 and total_kvs 1. -/
theorem C4_totals_exact_witness :
    fxReq.algorithm = ChecksumAlgorithm.crc64Xor ∧
    (handle_request fxRowsOf1 (ChecksumContext.new fxReq [rangeA]) m0).1 =
      Except.ok ⟨⟨checksum_fold 0 [rowK1V1], 1, 4⟩⟩ :=
  ⟨rfl, by
    have h := C4_totals_exact fxRowsOf1 fxReq [rangeA] m0 rfl
    simpa [rows_of_ranges, fxRowsOf1, total_bytes_of, row_bytes, rowK1V1]
      using h⟩

/-- C5: With zero ranges, or with ranges that each yield zero rows,
`handle_request` succeeds with the result {checksum 0, total_kvs 0,
total_bytes 0}. -/
theorem C5_empty_input_zero_result (rowsOf : KeyRange → List Row)
    (req : ChecksumRequest) (ranges : List KeyRange) (m : ExecutorMetrics)
    (halg : req.algorithm = ChecksumAlgorithm.crc64Xor)
    (hempty : ∀ r ∈ ranges, rowsOf r = []) :
    (handle_request rowsOf (ChecksumContext.new req ranges) m).1 =
      Except.ok ⟨⟨0, 0, 0⟩⟩ := by
  have hrows : rows_of_ranges rowsOf ranges = [] := by
    induction ranges with
    | nil => rfl
    | cons r rs ih =>
        have h1 : rowsOf r = [] := hempty r (List.mem_cons_self r rs)
        have h2 : rows_of_ranges rowsOf rs = [] :=
          ih (fun x hx => hempty x (List.mem_cons_of_mem r hx))
        simp only [rows_of_ranges, List.map_cons, List.flatten_cons, h1,
          List.nil_append]
        simpa [rows_of_ranges] using h2
  rw [handle_request_run rowsOf req ranges m halg, hrows]
  simp [checksum_fold, total_bytes_of]

/-- Witness for C5 with zero ranges. -/
theorem C5_empty_input_zero_result_witness :
    fxReq.algorithm = ChecksumAlgorithm.crc64Xor ∧
    (handle_request fxRowsOf1 (ChecksumContext.new fxReq []) m0).1 =
      Except.ok ⟨⟨0, 0, 0⟩⟩ :=
  ⟨rfl, C5_empty_input_zero_result fxRowsOf1 fxReq [] m0 rfl (by simp)⟩

/-- C6: For every run that drains all ranges, the engine flushes per-range
scan statistics into the metrics of the caller exactly once per range driven to
exhaustion (including the last range), and the row sequence produced by
repeated `next_row` calls is exactly the concatenation of the per-range
rows in cursor order: nothing skipped, nothing duplicated at a boundary. -/
theorem C6_flush_once_per_range (rowsOf : KeyRange → List Row)
    (ranges : List KeyRange) (m : ExecutorMetrics) :
    row_seq rowsOf none ranges m = rows_of_ranges rowsOf ranges ∧
    (scan_loop rowsOf none ranges m 0 0 0).2.cf_stats =
      m.cf_stats + ranges.length := by
  constructor
  · rw [row_seq_eq_stream]
    simp [rowsStream, pendingOf, rows_of_ranges]
  · rw [scan_loop_spec]
    simp [flush_count]

/-- Congruence of the fallible drain in the step scrutinee: two states on
which `next_rowE` agrees drain identically. -/
theorem scan_loopE_congr (src : SourceE) {sc1 : Option ScannerE}
    {rg1 : List KeyRange} {m1 : ExecutorMetrics} {sc2 : Option ScannerE}
    {rg2 : List KeyRange} {m2 : ExecutorMetrics}
    (h : next_rowE src sc1 rg1 m1 = next_rowE src sc2 rg2 m2) (c k b : Nat) :
    scan_loopE src sc1 rg1 m1 c k b = scan_loopE src sc2 rg2 m2 c k b := by
  rcases hx : next_rowE src sc2 rg2 m2 with ⟨o, sc', rs', m'⟩
  rw [hx] at h
  match o with
  | Except.ok (some row) => rw [scan_loopE_some src h, scan_loopE_some src hx]
  | Except.ok none => rw [scan_loopE_none src h, scan_loopE_none src hx]
  | Except.error e => rw [scan_loopE_err src h, scan_loopE_err src hx]

/-- C7: If the row source fails at any point — at construction of the
first binding, at a reset to a further range, or at any next-row poll —
`handle_request` propagates that very error unchanged to the caller and
aborts the request: no response value is produced and nothing is retried.
The last conjunct is fully general: whatever state the scan is in, an
erroring `next_row` step makes `handle_request` return exactly that
error. -/
theorem C7_source_error_propagated :
    (∀ (src : SourceE) (r : KeyRange) (rs : List KeyRange)
       (m : ExecutorMetrics) (e : CopError),
       src.bind_rows r = Except.error e →
       next_rowE src none (r :: rs) m = (Except.error e, none, rs, m)) ∧
    (∀ (src : SourceE) (e : CopError) (rest : List (Except CopError Row))
       (ranges : List KeyRange) (m : ExecutorMetrics),
       next_rowE src (some ⟨Except.error e :: rest⟩) ranges m =
         (Except.error e, some ⟨rest⟩, ranges, m.inc_range)) ∧
    (∀ (src : SourceE) (r : KeyRange) (rs : List KeyRange)
       (m : ExecutorMetrics) (e : CopError),
       src.reset_rows r = Except.error e →
       next_rowE src (some ⟨[]⟩) (r :: rs) m =
         (Except.error e, none, rs,
           ⟨m.scan_counter + 1, m.cf_stats + 1⟩)) ∧
    (∀ (src : SourceE) (req : ChecksumRequest) (ranges : List KeyRange)
       (sc : Option ScannerE) (m : ExecutorMetrics) (e : CopError)
       (sc' : Option ScannerE) (rs' : List KeyRange) (m' : ExecutorMetrics),
       req.algorithm = ChecksumAlgorithm.crc64Xor →
       next_rowE src sc ranges m = (Except.error e, sc', rs', m') →
       handle_requestE src ⟨req, ranges, sc⟩ m = (Except.error e, m')) := by
  refine ⟨?_, ?_, ?_, ?_⟩
  · intro src r rs m e h
    simp [next_rowE, h]
  · intro src e rest ranges m
    simp [next_rowE]
  · intro src r rs m e h
    simp [next_rowE, h]
  · intro src req ranges sc m e sc' rs' m' halg h
    simp only [handle_requestE, halg, ne_eq, not_true_eq_false, if_false]
    rw [scan_loopE_err src h]

/-- Witness for C7: a concrete source erroring at construction, one
erroring at a poll, one erroring at reset, and the erroring request. -/
theorem C7_source_error_propagated_witness :
    fxSrcBindErr.bind_rows rangeA = Except.error fxErr ∧
    next_rowE fxSrcBindErr none [rangeA] m0 =
      (Except.error fxErr, none, [], m0) ∧
    next_rowE fxSrcNextErr (some ⟨[Except.error fxErr]⟩) [] m0 =
      (Except.error fxErr, some ⟨[]⟩, [], m0.inc_range) ∧
    fxSrcResetErr.reset_rows rangeB = Except.error fxErr ∧
    next_rowE fxSrcResetErr (some ⟨[]⟩) [rangeB] m0 =
      (Except.error fxErr, none, [],
        ⟨m0.scan_counter + 1, m0.cf_stats + 1⟩) ∧
    handle_requestE fxSrcBindErr ⟨fxReq, [rangeA], none⟩ m0 =
      (Except.error fxErr, m0) :=
  ⟨rfl,
    C7_source_error_propagated.1 fxSrcBindErr rangeA [] m0 fxErr rfl,
    C7_source_error_propagated.2.1 fxSrcNextErr fxErr [] [] m0,
    rfl,
    C7_source_error_propagated.2.2.1 fxSrcResetErr rangeB [] m0 fxErr rfl,
    C7_source_error_propagated.2.2.2 fxSrcBindErr fxReq [rangeA] none m0
      fxErr none [] m0 rfl
      (C7_source_error_propagated.1 fxSrcBindErr rangeA [] m0 fxErr rfl)⟩

/-- C8: When the engine moves to a new range an existing row source is
reset to the new boundaries rather than discarded (second conjunct: the
abstract reset operation is invoked on the existing binding); only the
first range constructs a fresh row source (third conjunct: construction
happens only from the scanner-free state); the embedded `next_row` is the
reset-reuse instance (first conjunct); and under the hypothesis that reset
is observably equivalent to destroy-then-bind, the reset-reuse step agrees
with the fresh-per-range reference on every state, hence produces the same
row sequence and result. -/
theorem C8_reset_reuse_refinement (rowsOf : KeyRange → List Row)
    (reset : Scanner → KeyRange → Scanner) :
    (∀ (sc : Option Scanner) (ranges : List KeyRange) (m : ExecutorMetrics),
       next_row rowsOf sc ranges m =
         next_rowR rowsOf (Scanner.reset_range rowsOf) sc ranges m) ∧
    (∀ (r : KeyRange) (rs : List KeyRange) (m : ExecutorMetrics),
       next_rowR rowsOf reset (some ⟨[]⟩) (r :: rs) m =
         next_rowR rowsOf reset (some (reset ⟨[]⟩ r)) rs
           (Scanner.collect_statistics_into ⟨[]⟩ m.inc_range)) ∧
    (∀ (r : KeyRange) (rs : List KeyRange) (m : ExecutorMetrics),
       next_rowR rowsOf reset none (r :: rs) m =
         next_rowR rowsOf reset (some (Scanner.new rowsOf r)) rs m) ∧
    ((∀ s r, reset s r = Scanner.new rowsOf r) →
      ∀ (sc : Option Scanner) (ranges : List KeyRange) (m : ExecutorMetrics),
        next_rowR rowsOf reset sc ranges m =
          next_row_fresh rowsOf sc ranges m) :=
  ⟨fun sc ranges m => next_row_eq_next_rowR rowsOf ranges sc m,
    fun _r _rs _m => rfl,
    fun _r _rs _m => rfl,
    fun hres sc ranges m => next_rowR_eq_fresh rowsOf reset hres ranges sc m⟩

/-- Witness for C8 with the spec-modelled reset, which satisfies the
equivalence hypothesis definitionally. -/
theorem C8_reset_reuse_refinement_witness :
    next_rowR fxRowsOf1 (Scanner.reset_range fxRowsOf1) none [rangeA] m0 =
      next_row_fresh fxRowsOf1 none [rangeA] m0 :=
  (C8_reset_reuse_refinement fxRowsOf1 (Scanner.reset_range fxRowsOf1)).2.2.2
    (fun _s _r => rfl) none [rangeA] m0

/-- C9: Both loops terminate on finite input — the range-cursor length
plus one bounds the iterations of the `next_row` loop, and the pending row
count plus one bounds the pulls of the scan-and-accumulate loop — and the
row sequence ends exactly when the pending stream is empty; the state
`next_row` then leaves behind is the unique terminal one: empty cursor and
drained binding. -/
theorem C9_loops_terminate :
    (∀ (rowsOf : KeyRange → List Row) (sc : Option Scanner)
       (ranges : List KeyRange) (m : ExecutorMetrics),
       next_row_fuel rowsOf (ranges.length + 1) sc ranges m =
         some (next_row rowsOf sc ranges m)) ∧
    (∀ (rowsOf : KeyRange → List Row) (sc : Option Scanner)
       (ranges : List KeyRange) (m : ExecutorMetrics) (c k b : Nat),
       scan_loop_fuel rowsOf ((rowsStream rowsOf sc ranges).length + 1)
           sc ranges m c k b =
         some (scan_loop rowsOf sc ranges m c k b)) ∧
    (∀ (rowsOf : KeyRange → List Row) (sc : Option Scanner)
       (ranges : List KeyRange) (m : ExecutorMetrics),
       (next_row rowsOf sc ranges m).1 = none ↔
         rowsStream rowsOf sc ranges = []) ∧
    (∀ (rowsOf : KeyRange → List Row) (sc : Option Scanner)
       (ranges : List KeyRange) (m : ExecutorMetrics)
       (sc' : Option Scanner) (rs' : List KeyRange) (m' : ExecutorMetrics),
       next_row rowsOf sc ranges m = (none, sc', rs', m') →
       rs' = [] ∧ pendingOf sc' = []) := by
  refine ⟨fun rowsOf sc ranges m => next_row_fuel_enough rowsOf ranges sc m,
    fun rowsOf sc ranges m c k b =>
      scan_loop_fuel_enough rowsOf _ sc ranges m c k b (le_refl _),
    ?_, ?_⟩
  · intro rowsOf sc ranges m
    rcases h : next_row rowsOf sc ranges m with ⟨o, sc', rs', m'⟩
    match o with
    | none =>
        simp only [true_iff]
        exact (next_row_none rowsOf ranges sc m h).1
    | some row =>
        have hstr := (next_row_some rowsOf ranges sc m h).1
        simp only [reduceCtorEq, false_iff]
        rw [hstr]
        simp
  · intro rowsOf sc ranges m sc' rs' m' h
    have hn := next_row_none rowsOf ranges sc m h
    exact ⟨hn.2.1, hn.2.2.1⟩

/-- Witness for C9 at the empty terminal state. -/
theorem C9_loops_terminate_witness :
    next_row_fuel fxRowsOf1 1 none [] m0 =
      some (next_row fxRowsOf1 none [] m0) ∧
    (([] : List KeyRange) = [] ∧ pendingOf (none : Option Scanner) = []) :=
  ⟨C9_loops_terminate.1 fxRowsOf1 none [] m0,
    C9_loops_terminate.2.2.2 fxRowsOf1 none [] m0 none [] m0 rfl⟩

/-- C10: When a scan failure aborts a request partway through, the
metrics accumulator of the caller has already been mutated: the scan counter
holds one increment per row-source poll already made (the polls of the
yielded rows, the exhaustion poll of any drained range, and the erroring
poll itself), and the per-range statistics of every range exhausted before
the failure are already flushed; error atomicity covers the checksum
result, not the metrics argument. -/
theorem C10_metrics_mutated_before_error :
    (∀ (src : SourceE) (req : ChecksumRequest) (r : KeyRange)
       (rows : List Row) (e : CopError) (rest : List (Except CopError Row))
       (m : ExecutorMetrics),
       req.algorithm = ChecksumAlgorithm.crc64Xor →
       src.bind_rows r =
         Except.ok (rows.map Except.ok ++ Except.error e :: rest) →
       handle_requestE src ⟨req, [r], none⟩ m =
         (Except.error e,
           ⟨m.scan_counter + rows.length + 1, m.cf_stats⟩)) ∧
    (∀ (src : SourceE) (req : ChecksumRequest) (r1 r2 : KeyRange)
       (rows1 : List Row) (e : CopError) (rest : List (Except CopError Row))
       (m : ExecutorMetrics),
       req.algorithm = ChecksumAlgorithm.crc64Xor →
       src.bind_rows r1 = Except.ok (rows1.map Except.ok) →
       src.reset_rows r2 = Except.ok (Except.error e :: rest) →
       handle_requestE src ⟨req, [r1, r2], none⟩ m =
         (Except.error e,
           ⟨m.scan_counter + rows1.length + 2, m.cf_stats + 1⟩)) := by
  constructor
  · intro src req r rows e rest m halg hbind
    have h1 : next_rowE src none [r] m =
        next_rowE src (some ⟨rows.map Except.ok ++ Except.error e :: rest⟩)
          [] m := by
      simp [next_rowE, hbind]
    have h3 : next_rowE src (some ⟨Except.error e :: rest⟩) []
        (⟨m.scan_counter + rows.length, m.cf_stats⟩ : ExecutorMetrics) =
        (Except.error e, some ⟨rest⟩, [],
          ⟨m.scan_counter + rows.length + 1, m.cf_stats⟩) := by
      simp [next_rowE, ExecutorMetrics.inc_range]
    simp only [handle_requestE, halg, ne_eq, not_true_eq_false, if_false]
    rw [scan_loopE_congr src h1, scan_loopE_consume_oks src rows _ [] m,
      scan_loopE_err src h3]
  · intro src req r1 r2 rows1 e rest m halg hbind hreset
    have h1 : next_rowE src none [r1, r2] m =
        next_rowE src (some ⟨rows1.map Except.ok⟩) [r2] m := by
      simp [next_rowE, hbind]
    have h2 := scan_loopE_consume_oks src rows1 [] [r2] m 0 0 0
    have h3 : next_rowE src (some ⟨[]⟩) [r2]
        (⟨m.scan_counter + rows1.length, m.cf_stats⟩ : ExecutorMetrics) =
        (Except.error e, some ⟨rest⟩, [],
          ⟨m.scan_counter + rows1.length + 1 + 1, m.cf_stats + 1⟩) := by
      simp [next_rowE, hreset, ExecutorMetrics.inc_range]
    have harith : m.scan_counter + rows1.length + 1 + 1 =
        m.scan_counter + rows1.length + 2 := by omega
    simp only [handle_requestE, halg, ne_eq, not_true_eq_false, if_false]
    rw [scan_loopE_congr src h1]
    rw [show (some (⟨rows1.map Except.ok⟩ : ScannerE)) =
        some (⟨rows1.map Except.ok ++ []⟩ : ScannerE) by simp]
    rw [scan_loopE_consume_oks src rows1 [] [r2] m, scan_loopE_err src h3,
      harith]

/-- Witness for C10: one source failing mid-range after one good row, one
failing at the first poll of its second range. -/
theorem C10_metrics_mutated_before_error_witness :
    fxSrcMidErr.bind_rows rangeA =
      Except.ok ([rowX].map Except.ok ++ Except.error fxErr :: []) ∧
    handle_requestE fxSrcMidErr ⟨fxReq, [rangeA], none⟩ m0 =
      (Except.error fxErr, ⟨2, 0⟩) ∧
    fxSrcTwoRange.bind_rows rangeA = Except.ok ([rowX].map Except.ok) ∧
    fxSrcTwoRange.reset_rows rangeB =
      Except.ok (Except.error fxErr :: []) ∧
    handle_requestE fxSrcTwoRange ⟨fxReq, [rangeA, rangeB], none⟩ m0 =
      (Except.error fxErr, ⟨3, 1⟩) :=
  ⟨rfl,
    by
      have h := C10_metrics_mutated_before_error.1 fxSrcMidErr fxReq rangeA
        [rowX] fxErr [] m0 rfl rfl
      simpa using h,
    rfl, rfl,
    by
      have h := C10_metrics_mutated_before_error.2 fxSrcTwoRange fxReq
        rangeA rangeB [rowX] fxErr [] m0 rfl rfl rfl
      simpa using h⟩

end TikvChecksum
